import Mathlib

/-
Verification of the dedup fingerprint core: a shallow embedding of
src/signature.c and src/sig_table.c, followed by theorems about the
embedded definitions.

Modelling conventions:
* Machine integers (uint64_t, uint32_t, int32_t, size_t) are Nat with an
  explicit `% 2 ^ 64` (resp. `% 2 ^ 32`, `% 256`) wherever C arithmetic
  wraps.  The cast `(uint64_t)(int32_t)x` sign-extends and is modelled by
  `sext32`.
* File contents are a `List Nat` of bytes; `pread(fd, buf, cnt, off)` on a
  regular file returns the bytes `readBytes content off cnt` (short or
  empty past end-of-file).  Multi-byte words are assembled in a fixed
  little-endian order, the one documented choice the spec requires for the
  source's native-word-order reads.
* Fallible allocations and the open/read system calls are driven by
  explicit Bool oracles (`true` = the call succeeds), so every failure
  path of the C code is a reachable branch of the Lean definition.
* Pointer-returning C functions become Option-valued functions; the NEON
  and scalar paths of signature.c compute identical values, so one
  definition embeds both.
-/

namespace Dedup

/-- xxHash64 prime 1 (src/signature.c line 19). -/
def PRIME64_1 : Nat := 0x9E3779B185EBCA87

/-- xxHash64 prime 2 (src/signature.c line 20). -/
def PRIME64_2 : Nat := 0xC2B2AE3D27D4EB4F

/-- xxHash64 prime 3 (src/signature.c line 21). -/
def PRIME64_3 : Nat := 0x165667B19E3779F9

/-- xxHash64 prime 4 (src/signature.c line 22). -/
def PRIME64_4 : Nat := 0x85EBCA77C2B2AE63

/-- xxHash64 prime 5 (src/signature.c line 23). -/
def PRIME64_5 : Nat := 0x27D4EB2F165667C5

/-- Golden-ratio salt used by hash_signature (src/signature.c lines 194-195). -/
def GOLDEN : Nat := 0x9e3779b97f4a7c15

/-- 64-bit rotate left: `(x << r) | (x >> (64 - r))` on uint64_t
(src/signature.c lines 25-27). -/
def rotl64 (x r : Nat) : Nat :=
  (x % 2 ^ 64 <<< r) % 2 ^ 64 ||| x % 2 ^ 64 >>> (64 - r)

/-- The C cast `(uint64_t)(int32_t)x`: sign-extend a 32-bit pattern to 64
bits. -/
def sext32 (x : Nat) : Nat :=
  if x % 2 ^ 32 < 2 ^ 31 then x % 2 ^ 32 else x % 2 ^ 32 + (2 ^ 64 - 2 ^ 32)

/-- FileSignature (src/signature.h lines 14-19): device id, file size, the
four 32-bit samples (stored as little-endian bit patterns), and the
xxHash64 of the first 4KB. -/
@[ext]
structure FileSignature where
  device : Nat
  size : Nat
  samples : Nat × Nat × Nat × Nat
  quick_hash : Nat
deriving DecidableEq

/-- Assemble a little-endian word from a byte list (the C reads
`*(uint64_t*)p` / `*(uint32_t*)p`; bytes are reduced mod 256). -/
def leWord (bs : List Nat) : Nat :=
  bs.foldr (fun b acc => b % 256 + 256 * acc) 0

/-- The bytes `pread` returns for a regular file with contents `content`:
`cnt` bytes starting at `off`, truncated at end-of-file. -/
def readBytes (content : List Nat) (off cnt : Nat) : List Nat :=
  (content.drop off).take cnt

/-- One accumulator-lane round of xxhash64 (src/signature.c lines 42-45):
`v += w * PRIME64_2; v = rotl64(v, 31); v *= PRIME64_1`. -/
def xxRound (acc w : Nat) : Nat :=
  rotl64 ((acc + w * PRIME64_2) % 2 ^ 64) 31 * PRIME64_1 % 2 ^ 64

/-- The 32-byte block loop of xxhash64 (src/signature.c lines 41-46):
consume 32-byte blocks while at least 32 bytes remain, returning the four
lanes and the unconsumed tail. -/
def xxBlocks (v1 v2 v3 v4 : Nat) (bs : List Nat) :
    Nat × Nat × Nat × Nat × List Nat :=
  if _h32 : 32 ≤ bs.length then
    xxBlocks (xxRound v1 (leWord ((bs.drop 0).take 8)))
      (xxRound v2 (leWord ((bs.drop 8).take 8)))
      (xxRound v3 (leWord ((bs.drop 16).take 8)))
      (xxRound v4 (leWord ((bs.drop 24).take 8)))
      (bs.drop 32)
  else
    (v1, v2, v3, v4, bs)
termination_by bs.length
decreasing_by simp only [List.length_drop]; omega

/-- Lane merge step of xxhash64 (src/signature.c lines 50-53):
`v *= P2; v = rotl64(v, 31); v *= P1; h ^= v; h = h * P1 + P4`. -/
def xxMergeRound (h v : Nat) : Nat :=
  (h ^^^ rotl64 (v * PRIME64_2 % 2 ^ 64) 31 * PRIME64_1 % 2 ^ 64)
      * PRIME64_1 % 2 ^ 64 + PRIME64_4
    |> (· % 2 ^ 64)

/-- The 8-byte tail loop of xxhash64 (src/signature.c lines 60-65). -/
def xxTail8 (h : Nat) (bs : List Nat) : Nat × List Nat :=
  if _h8 : 8 ≤ bs.length then
    xxTail8
      ((rotl64
          (h ^^^
            rotl64 (leWord (bs.take 8) * PRIME64_2 % 2 ^ 64) 31 * PRIME64_1 % 2 ^ 64)
          27 * PRIME64_1 + PRIME64_4) % 2 ^ 64)
      (bs.drop 8)
  else
    (h, bs)
termination_by bs.length
decreasing_by simp only [List.length_drop]; omega

/-- The 4-byte tail step of xxhash64 (src/signature.c lines 67-71). -/
def xxTail4 (h : Nat) (bs : List Nat) : Nat × List Nat :=
  if 4 ≤ bs.length then
    ((rotl64 (h ^^^ leWord (bs.take 4) * PRIME64_1 % 2 ^ 64) 23
        * PRIME64_2 + PRIME64_3) % 2 ^ 64,
      bs.drop 4)
  else
    (h, bs)

/-- The single-byte tail step of xxhash64 (src/signature.c lines 73-76). -/
def xxByte (h b : Nat) : Nat :=
  rotl64 (h ^^^ b % 256 * PRIME64_5 % 2 ^ 64) 11 * PRIME64_1 % 2 ^ 64

/-- The final avalanche of xxhash64 (src/signature.c lines 78-82). -/
def xxAvalanche (h : Nat) : Nat :=
  let h1 := h ^^^ h >>> 33
  let h2 := h1 * PRIME64_2 % 2 ^ 64
  let h3 := h2 ^^^ h2 >>> 29
  let h4 := h3 * PRIME64_3 % 2 ^ 64
  h4 ^^^ h4 >>> 32

/-- xxhash64 over a byte buffer (src/signature.c lines 29-85), native word
reads modelled little-endian. -/
def xxhash64 (bs : List Nat) : Nat :=
  let prefixDone : Nat × List Nat :=
    if 32 ≤ bs.length then
      let r := xxBlocks ((PRIME64_1 + PRIME64_2) % 2 ^ 64) PRIME64_2 0
        ((2 ^ 64 - PRIME64_1) % 2 ^ 64) bs
      let v1 := r.1
      let v2 := r.2.1
      let v3 := r.2.2.1
      let v4 := r.2.2.2.1
      let h0 := (rotl64 v1 1 + rotl64 v2 7 + rotl64 v3 12 + rotl64 v4 18) % 2 ^ 64
      (xxMergeRound (xxMergeRound (xxMergeRound (xxMergeRound h0 v1) v2) v3) v4,
        r.2.2.2.2)
    else
      (PRIME64_5, bs)
  let h := (prefixDone.1 + bs.length) % 2 ^ 64
  let t8 := xxTail8 h prefixDone.2
  let t4 := xxTail4 t8.1 t8.2
  xxAvalanche (t4.2.foldl xxByte t4.1)

/-- The four sample offsets (src/signature.c lines 103-108): start, the two
interior third points, and the tail.  `size` is a uint64_t, so `size * 2`
wraps mod 2^64; the tail offset is `size > 4 ? size - 4 : 0`. -/
def sample_positions (size : Nat) : List Nat :=
  [0, size / 3, size * 2 % 2 ^ 64 / 3, if 4 < size then size - 4 else 0]

/-- compute_signature (src/signature.c lines 87-160).

Oracle parameters model the fallible environment, in the order the C code
consults it: `sigAlloc` is the `calloc` of the FileSignature (line 88),
`openOk` the `open` (line 96), `bufAlloc` the `malloc` of the hash window
buffer (line 139), `readErr` a device error (`pread` returning a negative
count) on the hash-window read (lines 146-147).  The four 4-byte sample
reads (both the NEON and the fallback path) must each return exactly 4
bytes or the function fails; the hash-window read hashes however many
bytes `pread` actually returned (`xxhash64(buf, n)`, line 154).  Every
failure path frees the partial signature and returns NULL, i.e. `none`. -/
def compute_signature (sigAlloc openOk bufAlloc readErr : Bool)
    (content : List Nat) (device size : Nat) : Option FileSignature :=
  if !sigAlloc then none
  else if !openOk then none
  else
    let ps := sample_positions size
    if ps.all fun p => (readBytes content p 4).length == 4 then
      if !bufAlloc then none
      else if readErr then none
      else
        some
          { device := device
            size := size
            samples :=
              (leWord (readBytes content (ps.getD 0 0) 4),
                leWord (readBytes content (ps.getD 1 0) 4),
                leWord (readBytes content (ps.getD 2 0) 4),
                leWord (readBytes content (ps.getD 3 0) 4))
            quick_hash := xxhash64 (readBytes content 0 (min size 4096)) }
    else none

/-- signatures_match (src/signature.c lines 166-189): NULL arguments never
match; otherwise compare device, size, quick_hash, then the four samples
(memcmp of the 16 sample bytes), in that cheapest-reject-first order. -/
def signatures_match : Option FileSignature → Option FileSignature → Bool
  | none, _ => false
  | some _, none => false
  | some a, some b =>
    if a.device ≠ b.device then false
    else if a.size ≠ b.size then false
    else if a.quick_hash ≠ b.quick_hash then false
    else decide (a.samples = b.samples)

/-- hash_signature (src/signature.c lines 191-212, scalar path; the NEON
path xors the same sample bits in unrotated form and is likewise a pure
function of the fields).  Each int32_t sample is cast to uint64_t
(sign-extension) before the multiply. -/
def hash_signature (s : FileSignature) : Nat :=
  let h0 := s.size % 2 ^ 64
  let h1 := h0 ^^^ (s.device % 2 ^ 64 + GOLDEN) % 2 ^ 64
  let h2 := h1 ^^^ (s.quick_hash % 2 ^ 64 + GOLDEN) % 2 ^ 64
  let step := fun h x => rotl64 (h ^^^ sext32 x * PRIME64_1 % 2 ^ 64) 27
  step (step (step (step h2 s.samples.1) s.samples.2.1) s.samples.2.2.1)
    s.samples.2.2.2

/-- SigTableEntry (src/sig_table.h lines 12-17): a collision-chain node
owning a signature, a copy of the path, and a clone id.  The `next`
pointer is the tail of the chain list in the model. -/
@[ext]
structure SigTableEntry where
  signature : FileSignature
  path : String
  clone_id : Nat
deriving DecidableEq

/-- SigTable (src/sig_table.h lines 20-24): a fixed array of bucket
chains, the bucket count, and the running entry count. -/
@[ext]
structure SigTable where
  buckets : List (List SigTableEntry)
  bucket_count : Nat
  entry_count : Nat
deriving DecidableEq

/-- The array read `table->buckets[i]` (out-of-range reads never happen in
the C code; the model returns the empty chain there). -/
def bucketGet : List (List SigTableEntry) → Nat → List SigTableEntry
  | [], _ => []
  | c :: _, 0 => c
  | _ :: bs, n + 1 => bucketGet bs n

/-- The array write `table->buckets[i] = c`. -/
def bucketSet : List (List SigTableEntry) → Nat → List SigTableEntry →
    List (List SigTableEntry)
  | [], _, _ => []
  | _ :: bs, 0, c => c :: bs
  | c0 :: bs, n + 1, c => c0 :: bucketSet bs n c

/-- Every entry reachable from the bucket array, in bucket-then-chain
order — the traversal order of sig_table_has_clone_id, free_sig_table and
sig_table_collisions. -/
def allEntries : List (List SigTableEntry) → List SigTableEntry
  | [] => []
  | c :: bs => c ++ allEntries bs

/-- new_sig_table (src/sig_table.c lines 9-25): two fallible allocations
(the table struct and the zeroed bucket array), then an empty table of
`bucket_count` empty chains.  `calloc(0, ...)` is allowed to succeed, so
`bucket_count = 0` can produce a table. -/
def new_sig_table (tableAlloc bucketsAlloc : Bool) (bucket_count : Nat) :
    Option SigTable :=
  if !tableAlloc then none
  else if !bucketsAlloc then none
  else some ⟨List.replicate bucket_count [], bucket_count, 0⟩

/-- The table new_sig_table returns when both allocations succeed. -/
def emptyTable (bucket_count : Nat) : SigTable :=
  ⟨List.replicate bucket_count [], bucket_count, 0⟩

/-- Bucket selection (src/sig_table.c line 53): `hash % table->bucket_count`,
with no guard against `bucket_count == 0` (division by zero in C; Lean's
total `%` returns `hash` there, which is then an out-of-range index). -/
def bucket_index (t : SigTable) (hash : Nat) : Nat :=
  hash % t.bucket_count

/-- The collision-chain walk of sig_table_insert (src/sig_table.c lines
56-63): return the first entry whose stored signature matches. -/
def chain_find (chain : List SigTableEntry) (sig : FileSignature) :
    Option SigTableEntry :=
  match chain with
  | [] => none
  | e :: rest =>
    if signatures_match (some e.signature) (some sig) then some e
    else chain_find rest sig

/-- The bucket chain sig_table_insert walks for a given signature. -/
def lookupChain (t : SigTable) (sig : FileSignature) : List SigTableEntry :=
  bucketGet t.buckets (bucket_index t (hash_signature sig))

/-- sig_table_insert (src/sig_table.c lines 47-80).  Returns the C result
pointer (some entry on a match, none both after a successful insertion and
after a failed node allocation — the shared null sentinel of the source)
paired with the table state afterwards.  `allocOk` is the `calloc` of the
new chain node (line 66).  On a match the table is untouched and the
caller keeps ownership of `sig`; on insertion the new node takes `sig`,
stores the path copy and clone id, is prepended to the selected bucket's
chain, and the entry counter is incremented.  (The C NULL-argument guard
and the unchecked `strdup` result are outside the value model.) -/
def sig_table_insert (allocOk : Bool) (t : SigTable) (sig : FileSignature)
    (path : String) (clone_id : Nat) : Option SigTableEntry × SigTable :=
  let idx := bucket_index t (hash_signature sig)
  let chain := bucketGet t.buckets idx
  match chain_find chain sig with
  | some e => (some e, t)
  | none =>
    if allocOk then
      (none,
        ⟨bucketSet t.buckets idx (⟨sig, path, clone_id⟩ :: chain),
          t.bucket_count, t.entry_count + 1⟩)
    else (none, t)

/-- sig_table_has_clone_id (src/sig_table.c lines 82-98): false for the
reserved id 0, otherwise a full scan of every bucket chain. -/
def sig_table_has_clone_id (t : SigTable) (clone_id : Nat) : Bool :=
  if clone_id = 0 then false
  else t.buckets.any fun chain => chain.any fun e => e.clone_id == clone_id

/-- sig_table_size (src/sig_table.c lines 100-102) on a non-NULL table:
the entry counter. -/
def sig_table_size (t : SigTable) : Nat :=
  t.entry_count

/-- sig_table_collisions (src/sig_table.c lines 104-123): walk every
bucket, count its chain length, and add `chain_len - 1` when the chain
holds more than one entry. -/
def sig_table_collisions (t : SigTable) : Nat :=
  t.buckets.foldl
    (fun acc chain => if 1 < chain.length then acc + (chain.length - 1) else acc)
    0

/-- Fold a batch of (signature, path, clone id) submissions through
sig_table_insert with succeeding node allocations, keeping the table. -/
def insertAll (t : SigTable) : List (FileSignature × String × Nat) → SigTable
  | [] => t
  | x :: rest => insertAll (sig_table_insert true t x.1 x.2.1 x.2.2).2 rest

/-- Per-chain part of the table representation invariant: every entry in
bucket `i` is placed by its signature hash. -/
def bucketsOk (bc : Nat) : Nat → List (List SigTableEntry) → Bool
  | _, [] => true
  | i, c :: bs =>
    (c.all fun e => hash_signature e.signature % bc == i) && bucketsOk bc (i + 1) bs

/-- Representation invariant of SigTable, established by new_sig_table and
preserved by sig_table_insert: the bucket array has exactly `bucket_count`
chains and every entry sits in the bucket its signature hash selects. -/
def wf (t : SigTable) : Bool :=
  (t.buckets.length == t.bucket_count) && bucketsOk t.bucket_count 0 t.buckets

/-- A concrete signature used by the concrete-instance theorems. -/
def sigW : FileSignature :=
  ⟨1, 12, (1, 2, 3, 4), 7⟩

/-- A second concrete signature differing from `sigW` in one sample. -/
def sigX : FileSignature :=
  ⟨1, 12, (1, 2, 3, 5), 7⟩

/-- A concrete four-bucket table holding `sigW`, built through the API. -/
def exampleTable : SigTable :=
  (sig_table_insert true (emptyTable 4) sigW "a" 1).2

/-- A concrete two-bucket table with one entry whose clone id is 5. -/
def cloneTable : SigTable :=
  ⟨[[⟨sigW, "x", 5⟩], []], 2, 1⟩

/-! ### Helper lemmas about the fingerprint engine -/

/-- Two non-NULL signatures match exactly when they are field-for-field
equal. -/
lemma signatures_match_iff (a b : FileSignature) :
    signatures_match (some a) (some b) = true ↔ a = b := by
  cases a with
  | mk ad az as aq =>
    cases b with
    | mk bd bz bs bq =>
      simp only [signatures_match, FileSignature.mk.injEq]
      split_ifs with h1 h2 h3 <;> simp_all [decide_eq_true_iff]

/-- Matching is reflexive on non-NULL signatures. -/
lemma signatures_match_refl (s : FileSignature) :
    signatures_match (some s) (some s) = true := by
  simp [signatures_match]

/-- The length of a positioned read. -/
lemma readBytes_length (content : List Nat) (off cnt : Nat) :
    (readBytes content off cnt).length = min cnt (content.length - off) := by
  simp [readBytes]

/-! ### Claim theorems C1 and C7 -/

/-- C1: whenever `signatures_match a b` holds, `hash_signature a` equals
`hash_signature b`; moreover `hash_signature` is a pure function of the
device, size, quick_hash and samples fields (equal fields give equal
hashes). -/
theorem hash_signature_consistent_with_match :
    (∀ a b : FileSignature, signatures_match (some a) (some b) = true →
      hash_signature a = hash_signature b) ∧
    (∀ a b : FileSignature, a.device = b.device → a.size = b.size →
      a.quick_hash = b.quick_hash → a.samples = b.samples →
      hash_signature a = hash_signature b) := by
  constructor
  · intro a b h
    rw [(signatures_match_iff a b).mp h]
  · intro a b h1 h2 h3 h4
    rw [FileSignature.ext h1 h2 h4 h3]

/-- Witness for C1 at a concrete matching pair of signatures. -/
theorem hash_signature_consistent_with_match_witness :
    hash_signature ⟨1, 12, (1, 2, 3, 4), 7⟩ =
      hash_signature ⟨1, 12, (1, 2, 3, 4), 7⟩ :=
  hash_signature_consistent_with_match.1 ⟨1, 12, (1, 2, 3, 4), 7⟩
    ⟨1, 12, (1, 2, 3, 4), 7⟩ (by decide)

/-- C7: for non-NULL signatures, `signatures_match` returns true iff
device, size, quick_hash and all four samples are pairwise equal (the
embedded definition performs the checks in exactly the source's
device-size-quick_hash-samples order), and matching is reflexive — in
particular every successfully computed signature matches itself. -/
theorem signatures_match_exact_equality :
    (∀ a b : FileSignature,
      signatures_match (some a) (some b) = true ↔
        a.device = b.device ∧ a.size = b.size ∧ a.quick_hash = b.quick_hash ∧
          a.samples = b.samples) ∧
    (∀ s : FileSignature, signatures_match (some s) (some s) = true) := by
  constructor
  · intro a b
    rw [signatures_match_iff]
    constructor
    · rintro rfl
      exact ⟨rfl, rfl, rfl, rfl⟩
    · rintro ⟨h1, h2, h3, h4⟩
      exact FileSignature.ext h1 h2 h4 h3
  · exact signatures_match_refl

/-- If every 4-byte sample read returned a full 4 bytes, the hash-window
read cannot come up short: the tail sample pins the file length to at
least `size` (at least 4 for tiny sizes), which covers the whole
`min size 4096` window.  This is why the source's missing short-count
check on the hash-window read is unobservable for a file that does not
change under the reader. -/
lemma hash_window_full (content : List Nat) (size : Nat)
    (hall : ∀ p ∈ sample_positions size, (readBytes content p 4).length = 4) :
    (readBytes content 0 (min size 4096)).length = min size 4096 := by
  have h0 := hall 0 (by simp [sample_positions])
  have h3 := hall (if 4 < size then size - 4 else 0) (by simp [sample_positions])
  rw [readBytes_length] at h0 h3 ⊢
  by_cases h4 : 4 < size
  · rw [if_pos h4] at h3
    omega
  · rw [if_neg h4] at h3
    omega

/-! ### Claim theorems C5 and C6 -/

/-- C5 (amended): `compute_signature` returns `Unavailable` (none — never a
partially populated signature, the model has no partial result) exactly
when the signature record allocation fails, the file cannot be opened,
some 4-byte sample read returns fewer than 4 bytes, the hash-window read
fails with a negative count, the hash-window read is short, or the read
buffer cannot be allocated.  The amendment over the claim is the first
case: the initial `calloc` of the FileSignature is a failure source the
claim's list omits.  (The short-window case is vacuous: it forces a short
sample read, see `hash_window_full` — the source indeed never checks it.) -/
theorem compute_signature_failure_cases (sa oo ba re : Bool)
    (content : List Nat) (device size : Nat) :
    compute_signature sa oo ba re content device size = none ↔
      sa = false ∨ oo = false ∨
        (∃ p ∈ sample_positions size, (readBytes content p 4).length < 4) ∨
        re = true ∨
        (readBytes content 0 (min size 4096)).length < min size 4096 ∨
        ba = false := by
  cases sa
  · simp [compute_signature]
  · cases oo
    · simp [compute_signature]
    · by_cases hall :
        ((sample_positions size).all fun p => (readBytes content p 4).length == 4) = true
      · have hfull : ∀ p ∈ sample_positions size, (readBytes content p 4).length = 4 := by
          intro p hp
          simpa using List.all_eq_true.mp hall p hp
        have hno : ¬ ∃ p ∈ sample_positions size, (readBytes content p 4).length < 4 := by
          rintro ⟨p, hp, hlt⟩
          have := hfull p hp
          omega
        have hwin := hash_window_full content size hfull
        cases ba
        · simp [compute_signature, hall]
        · cases re
          · simp [compute_signature, hall, hno, hwin]
          · simp [compute_signature, hall]
      · have hex : ∃ p ∈ sample_positions size, (readBytes content p 4).length < 4 := by
          rw [List.all_eq_true] at hall
          push_neg at hall
          obtain ⟨p, hp, hne⟩ := hall
          refine ⟨p, hp, ?_⟩
          have hle : (readBytes content p 4).length ≤ 4 := by
            rw [readBytes_length]
            omega
          have : (readBytes content p 4).length ≠ 4 := by simpa using hne
          omega
        simp [compute_signature, hall, hex]

/-- Counterexample to C5 as stated: with the file fully readable (12
bytes, size 12: every sample read returns 4 bytes, the hash window is
full, the open succeeds, the buffer allocation succeeds, no read error),
but the FileSignature allocation itself failing, `compute_signature`
returns Unavailable although none of the claim's four listed failure
cases holds. -/
theorem compute_signature_missing_failure_case :
    compute_signature false true true false (List.replicate 12 1) 0 12 = none ∧
    ¬ ((true : Bool) = false ∨
        (∃ p ∈ sample_positions 12,
          (readBytes (List.replicate 12 1) p 4).length < 4) ∨
        (false : Bool) = true ∨
        (readBytes (List.replicate 12 1) 0 (min 12 4096)).length < min 12 4096 ∨
        (true : Bool) = false) := by
  constructor
  · rfl
  · decide

/-- C6 (amended): for every file size below 2^63 (every size `stat` can
report) the four sample offsets are 0, ⌊size/3⌋, ⌊2·size/3⌋ and
max(size − 4, 0); for files of at most 4 bytes the tail offset degenerates
to zero, and all four offsets are zero only for sizes ≤ 1 (not for every
size under 4, as the claim stated). -/
theorem sample_positions_amended (size : Nat) (hsize : size < 2 ^ 63) :
    sample_positions size =
      [0, size / 3, 2 * size / 3, ((size : ℤ) - 4).toNat] ∧
    (size ≤ 4 → (sample_positions size).getD 3 0 = 0) ∧
    (size ≤ 1 → sample_positions size = [0, 0, 0, 0]) := by
  have hwrap : size * 2 % 2 ^ 64 = 2 * size := by
    rw [Nat.mul_comm, Nat.mod_eq_of_lt (by omega)]
  refine ⟨?_, ?_, ?_⟩
  · have htail : (if 4 < size then size - 4 else 0) = ((size : ℤ) - 4).toNat := by
      split_ifs with h <;> omega
    simp only [sample_positions, hwrap, htail]
  · intro h
    simp only [sample_positions, List.getD_cons_succ, List.getD_cons_zero]
    rw [if_neg (by omega)]
  · intro h
    simp only [sample_positions, hwrap]
    rw [if_neg (by omega)]
    have h1 : size / 3 = 0 := by omega
    have h2 : 2 * size / 3 = 0 := by omega
    rw [h1, h2]

/-- Witness for C6 (amended) at size 1: offsets `[0, 0, 0, 0]`. -/
theorem sample_positions_amended_witness :
    sample_positions 1 = [0, 1 / 3, 2 * 1 / 3, ((1 : ℤ) - 4).toNat] ∧
    ((1 : Nat) ≤ 4 → (sample_positions 1).getD 3 0 = 0) ∧
    ((1 : Nat) ≤ 1 → sample_positions 1 = [0, 0, 0, 0]) :=
  sample_positions_amended 1 (by omega)

/-- Counterexample to C6 as stated: at size 3 (a file under 4 bytes) the
sample offsets are `[0, 1, 2, 0]`, not all zero. -/
theorem sample_positions_not_all_zero_under_4 :
    sample_positions 3 ≠ [0, 0, 0, 0] := by decide

/-! ### Helper lemmas about the signature table -/

/-- A chain walk that matches nothing returns NULL. -/
lemma chain_find_eq_none (chain : List SigTableEntry) (s : FileSignature)
    (h : ∀ e ∈ chain, signatures_match (some e.signature) (some s) = false) :
    chain_find chain s = none := by
  induction chain with
  | nil => rfl
  | cons e rest ih =>
    have he := h e (List.mem_cons_self e rest)
    simp [chain_find, he]
    exact ih fun x hx => h x (List.mem_cons_of_mem _ hx)

/-- A chain that contains a matching entry makes `chain_find` return the
first matching entry: the entry at some index `i` that matches, all
earlier indices failing to match. -/
lemma chain_find_first (chain : List SigTableEntry) (s : FileSignature)
    (hex : ∃ e ∈ chain, signatures_match (some e.signature) (some s) = true) :
    ∃ i, ∃ hi : i < chain.length,
      chain_find chain s = some (chain.get ⟨i, hi⟩) ∧
      signatures_match (some (chain.get ⟨i, hi⟩).signature) (some s) = true ∧
      ∀ j (hj : j < chain.length), j < i →
        signatures_match (some (chain.get ⟨j, hj⟩).signature) (some s) = false := by
  induction chain with
  | nil => simp at hex
  | cons e rest ih =>
    cases hm : signatures_match (some e.signature) (some s) with
    | true =>
      refine ⟨0, by simp, ?_, ?_, ?_⟩
      · simp [chain_find, hm]
      · simpa using hm
      · intro j hj hj0
        omega
    | false =>
      have hex2 : ∃ x ∈ rest, signatures_match (some x.signature) (some s) = true := by
        obtain ⟨x, hx, hmx⟩ := hex
        rcases List.mem_cons.mp hx with rfl | hxr
        · rw [hm] at hmx
          exact absurd hmx (by simp)
        · exact ⟨x, hxr, hmx⟩
      obtain ⟨i, hi, hfind, hmi, hmin⟩ := ih hex2
      refine ⟨i + 1, by simpa using Nat.succ_lt_succ hi, ?_, ?_, ?_⟩
      · simpa [chain_find, hm] using hfind
      · simpa using hmi
      · intro j hj hjlt
        cases j with
        | zero => simpa using hm
        | succ k =>
          have hk : k < rest.length := by simpa using hj
          simpa using hmin k hk (by omega)

/-- Every chain entry is among the table's entries. -/
lemma bucketGet_mem_allEntries :
    ∀ (bs : List (List SigTableEntry)) (j : Nat) (e : SigTableEntry),
      e ∈ bucketGet bs j → e ∈ allEntries bs := by
  intro bs
  induction bs with
  | nil =>
    intro j e he
    simp [bucketGet] at he
  | cons c bs ih =>
    intro j e he
    cases j with
    | zero =>
      simp only [allEntries, List.mem_append]
      exact Or.inl (by simpa [bucketGet] using he)
    | succ k =>
      simp only [allEntries, List.mem_append]
      exact Or.inr (ih k e (by simpa [bucketGet] using he))

/-- In a well-placed bucket array, every entry lives in the bucket its
signature hash selects. -/
lemma bucketsOk_mem_bucket (bc : Nat) :
    ∀ (bs : List (List SigTableEntry)) (i0 : Nat) (e : SigTableEntry),
      bucketsOk bc i0 bs = true → e ∈ allEntries bs →
      ∃ j, hash_signature e.signature % bc = i0 + j ∧ e ∈ bucketGet bs j := by
  intro bs
  induction bs with
  | nil =>
    intro i0 e _ he
    simp [allEntries] at he
  | cons c bs ih =>
    intro i0 e hok he
    rw [bucketsOk, Bool.and_eq_true] at hok
    obtain ⟨h1, h2⟩ := hok
    rcases List.mem_append.mp (by simpa [allEntries] using he) with hc | hrest
    · refine ⟨0, ?_, by simpa [bucketGet] using hc⟩
      have := List.all_eq_true.mp h1 e hc
      simpa using this
    · obtain ⟨j, hj, hmem⟩ := ih (i0 + 1) e h2 hrest
      exact ⟨j + 1, by omega, by simpa [bucketGet] using hmem⟩

/-- Writing a bucket keeps the array length. -/
lemma length_bucketSet :
    ∀ (bs : List (List SigTableEntry)) (j : Nat) (c : List SigTableEntry),
      (bucketSet bs j c).length = bs.length := by
  intro bs
  induction bs with
  | nil =>
    intro j c
    rfl
  | cons c0 bs ih =>
    intro j c
    cases j with
    | zero => rfl
    | succ k => simp [bucketSet, ih]

/-- Reading back the bucket just written. -/
lemma bucketGet_bucketSet_self :
    ∀ (bs : List (List SigTableEntry)) (j : Nat) (c : List SigTableEntry),
      j < bs.length → bucketGet (bucketSet bs j c) j = c := by
  intro bs
  induction bs with
  | nil =>
    intro j c h
    simp at h
  | cons c0 bs ih =>
    intro j c h
    cases j with
    | zero => rfl
    | succ k =>
      simpa [bucketSet, bucketGet] using ih k c (by simpa using h)

/-- Prepending an entry onto one bucket adds exactly that entry to the
table's entry collection. -/
lemma mem_allEntries_bucketSet (e x : SigTableEntry) :
    ∀ (bs : List (List SigTableEntry)) (j : Nat), j < bs.length →
      (x ∈ allEntries (bucketSet bs j (e :: bucketGet bs j)) ↔
        x = e ∨ x ∈ allEntries bs) := by
  intro bs
  induction bs with
  | nil =>
    intro j h
    simp at h
  | cons c bs ih =>
    intro j h
    cases j with
    | zero =>
      simp [bucketSet, bucketGet, allEntries, List.mem_append, List.mem_cons]
    | succ k =>
      have hbs := ih k (by simpa using h)
      simp only [bucketSet, bucketGet, allEntries, List.mem_append] at hbs ⊢
      tauto

/-- Prepending a correctly hashed entry onto its own bucket preserves the
placement invariant. -/
lemma bucketsOk_bucketSet_cons (bc : Nat) (e : SigTableEntry) :
    ∀ (bs : List (List SigTableEntry)) (i0 j : Nat),
      bucketsOk bc i0 bs = true →
      hash_signature e.signature % bc = i0 + j →
      j < bs.length →
      bucketsOk bc i0 (bucketSet bs j (e :: bucketGet bs j)) = true := by
  intro bs
  induction bs with
  | nil =>
    intro i0 j _ _ h
    simp at h
  | cons c bs ih =>
    intro i0 j hok hh hj
    rw [bucketsOk, Bool.and_eq_true] at hok
    obtain ⟨h1, h2⟩ := hok
    cases j with
    | zero =>
      simp only [bucketSet, bucketGet]
      rw [bucketsOk, Bool.and_eq_true]
      refine ⟨?_, h2⟩
      rw [List.all_cons, Bool.and_eq_true]
      exact ⟨by simpa using hh, h1⟩
    | succ k =>
      simp only [bucketSet]
      rw [bucketsOk, Bool.and_eq_true]
      exact ⟨h1, ih (i0 + 1) k h2 (by omega) (by simpa using hj)⟩

/-- A fresh bucket array satisfies the placement invariant. -/
lemma bucketsOk_replicate (bc n : Nat) :
    ∀ i, bucketsOk bc i (List.replicate n []) = true := by
  induction n with
  | zero =>
    intro i
    rfl
  | succ m ih =>
    intro i
    rw [List.replicate_succ]
    simp [bucketsOk, ih (i + 1)]

/-- A fresh table holds no entries. -/
lemma allEntries_replicate (n : Nat) : allEntries (List.replicate n []) = [] := by
  induction n with
  | zero => rfl
  | succ m ih =>
    rw [List.replicate_succ]
    simp [allEntries, ih]

/-- new_sig_table establishes the representation invariant. -/
lemma wf_emptyTable (bc : Nat) : wf (emptyTable bc) = true := by
  simp [wf, emptyTable, bucketsOk_replicate]

/-- A successful insertion of a signature not yet stored: NULL result,
invariant preserved, bucket count kept, entry counter incremented by one,
the new node (owning the signature, the path copy and the clone id)
prepended at the head of the selected bucket's chain, and the entry
collection extended by exactly that node. -/
lemma insert_no_match (t : SigTable) (s : FileSignature) (p : String) (c : Nat)
    (hwf : wf t = true) (hbc : 1 ≤ t.bucket_count)
    (hnew : ∀ e ∈ allEntries t.buckets, e.signature ≠ s) :
    (sig_table_insert true t s p c).1 = none ∧
    wf (sig_table_insert true t s p c).2 = true ∧
    (sig_table_insert true t s p c).2.bucket_count = t.bucket_count ∧
    sig_table_size (sig_table_insert true t s p c).2 = sig_table_size t + 1 ∧
    bucketGet (sig_table_insert true t s p c).2.buckets
        (bucket_index t (hash_signature s)) = ⟨s, p, c⟩ :: lookupChain t s ∧
    ∀ x, x ∈ allEntries (sig_table_insert true t s p c).2.buckets ↔
      x = ⟨s, p, c⟩ ∨ x ∈ allEntries t.buckets := by
  rw [wf, Bool.and_eq_true, beq_iff_eq] at hwf
  obtain ⟨hlen, hok⟩ := hwf
  have hidx : bucket_index t (hash_signature s) < t.buckets.length := by
    rw [hlen]
    exact Nat.mod_lt _ hbc
  have hfind :
      chain_find (bucketGet t.buckets (bucket_index t (hash_signature s))) s = none := by
    apply chain_find_eq_none
    intro e he
    have hmem := bucketGet_mem_allEntries t.buckets _ e he
    cases hm : signatures_match (some e.signature) (some s) with
    | false => rfl
    | true => exact absurd ((signatures_match_iff _ _).mp hm) (hnew e hmem)
  have hres : sig_table_insert true t s p c =
      (none, ⟨bucketSet t.buckets (bucket_index t (hash_signature s))
        (⟨s, p, c⟩ :: bucketGet t.buckets (bucket_index t (hash_signature s))),
        t.bucket_count, t.entry_count + 1⟩) := by
    simp [sig_table_insert, hfind]
  rw [hres]
  refine ⟨rfl, ?_, rfl, rfl, ?_, ?_⟩
  · rw [wf, Bool.and_eq_true, beq_iff_eq]
    refine ⟨?_, ?_⟩
    · rw [length_bucketSet]
      exact hlen
    · exact bucketsOk_bucketSet_cons t.bucket_count ⟨s, p, c⟩ t.buckets 0
        (bucket_index t (hash_signature s)) hok (by simp [bucket_index]) hidx
  · exact bucketGet_bucketSet_self t.buckets _ _ hidx
  · intro x
    exact mem_allEntries_bucketSet ⟨s, p, c⟩ x t.buckets _ hidx

/-- Folding pairwise-distinct, previously unseen signatures through
sig_table_insert grows the entry counter by one per signature. -/
lemma insertAll_size_aux :
    ∀ (L : List (FileSignature × String × Nat)) (t : SigTable),
      wf t = true → 1 ≤ t.bucket_count →
      (L.map fun x => x.1).Pairwise (· ≠ ·) →
      (∀ x ∈ L, ∀ e ∈ allEntries t.buckets, e.signature ≠ x.1) →
      sig_table_size (insertAll t L) = sig_table_size t + L.length := by
  intro L
  induction L with
  | nil =>
    intro t _ _ _ _
    simp [insertAll]
  | cons x L ih =>
    intro t hwf hbc hpw hdisj
    obtain ⟨k1, k2, k3, k4, k5, k6⟩ :=
      insert_no_match t x.1 x.2.1 x.2.2 hwf hbc
        (fun e he => hdisj x (List.mem_cons_self x L) e he)
    rw [List.map_cons, List.pairwise_cons] at hpw
    obtain ⟨hhead, htail⟩ := hpw
    have hstep : insertAll t (x :: L) =
        insertAll (sig_table_insert true t x.1 x.2.1 x.2.2).2 L := rfl
    rw [hstep, ih (sig_table_insert true t x.1 x.2.1 x.2.2).2 k2 (by omega) htail ?_,
      k4, List.length_cons]
    · omega
    · intro y hy e he
      rcases (k6 e).mp he with rfl | hold
      · exact hhead y.1 (List.mem_map_of_mem _ hy)
      · exact hdisj y (List.mem_cons_of_mem _ hy) e hold

/-! ### Claim theorems C2, C3, C4 -/

/-- C2: on a table satisfying the representation invariant, inserting a
signature that matches some stored signature returns the first matching
entry of that signature's bucket chain (the Match outcome), leaves the
table — in particular `sig_table_size` — unchanged, adds no entry, and
does not take the passed-in signature (the table value is exactly the old
one, so the caller retains ownership). -/
theorem sig_table_insert_match_returns_first (ok : Bool) (t : SigTable)
    (s : FileSignature) (p : String) (c : Nat)
    (hwf : wf t = true)
    (hmatch : ∃ e ∈ allEntries t.buckets,
      signatures_match (some e.signature) (some s) = true) :
    ∃ i, ∃ hi : i < (lookupChain t s).length,
      sig_table_insert ok t s p c = (some ((lookupChain t s).get ⟨i, hi⟩), t) ∧
      signatures_match (some ((lookupChain t s).get ⟨i, hi⟩).signature) (some s) = true ∧
      (∀ j (hj : j < (lookupChain t s).length), j < i →
        signatures_match (some ((lookupChain t s).get ⟨j, hj⟩).signature) (some s) = false) ∧
      sig_table_size (sig_table_insert ok t s p c).2 = sig_table_size t := by
  rw [wf, Bool.and_eq_true, beq_iff_eq] at hwf
  obtain ⟨hlen, hok⟩ := hwf
  obtain ⟨e0, he0, hm0⟩ := hmatch
  have heq : e0.signature = s := (signatures_match_iff _ _).mp hm0
  obtain ⟨j, hj, hmem⟩ := bucketsOk_mem_bucket t.bucket_count t.buckets 0 e0 hok he0
  have hjdx : bucket_index t (hash_signature s) = j := by
    rw [bucket_index, ← heq, hj]
    omega
  have hmem2 : e0 ∈ lookupChain t s := by
    rw [lookupChain, hjdx]
    exact hmem
  obtain ⟨i, hi, hfind, hmi, hmin⟩ := chain_find_first (lookupChain t s) s ⟨e0, hmem2, hm0⟩
  have hres : sig_table_insert ok t s p c = (some ((lookupChain t s).get ⟨i, hi⟩), t) := by
    have hbg : bucketGet t.buckets (bucket_index t (hash_signature s)) = lookupChain t s := rfl
    simp [sig_table_insert, hbg, hfind]
  exact ⟨i, hi, hres, hmi, hmin, by rw [hres]⟩

/-- C3: under the representation invariant (and the bucket_count ≥ 1
precondition the table needs, cf. C10), an insertion of a not-yet-stored
signature returns NULL, creates the node `⟨s, p, c⟩` (taking the
signature, storing the path copy and the clone id) at the head of the
selected bucket's chain, and increments the entry counter by exactly one;
consequently inserting N signatures with pairwise-distinct
(device, size, quick_hash, samples) into a fresh table yields
`sig_table_size = N`. -/
theorem sig_table_insert_unique_entries :
    (∀ (t : SigTable) (s : FileSignature) (p : String) (c : Nat),
      wf t = true → 1 ≤ t.bucket_count →
      (∀ e ∈ allEntries t.buckets, e.signature ≠ s) →
      (sig_table_insert true t s p c).1 = none ∧
        bucketGet (sig_table_insert true t s p c).2.buckets
            (bucket_index t (hash_signature s)) = ⟨s, p, c⟩ :: lookupChain t s ∧
        sig_table_size (sig_table_insert true t s p c).2 = sig_table_size t + 1) ∧
    (∀ (bc : Nat) (L : List (FileSignature × String × Nat)), 1 ≤ bc →
      (L.map fun x => x.1).Pairwise (· ≠ ·) →
      sig_table_size (insertAll (emptyTable bc) L) = L.length) := by
  constructor
  · intro t s p c hwf hbc hnew
    obtain ⟨k1, _, _, k4, k5, _⟩ := insert_no_match t s p c hwf hbc hnew
    exact ⟨k1, k5, k4⟩
  · intro bc L hbc hpw
    have hdisj : ∀ x ∈ L, ∀ e ∈ allEntries (emptyTable bc).buckets, e.signature ≠ x.1 := by
      intro x _ e he
      rw [emptyTable] at he
      simp [allEntries_replicate] at he
    have := insertAll_size_aux L (emptyTable bc) (wf_emptyTable bc) hbc hpw hdisj
    simpa [emptyTable, sig_table_size] using this

/-- C4 (amended): when no match exists on the signature's chain and the
node allocation fails, sig_table_insert returns the NULL sentinel with the
table (and hence `sig_table_size`) unchanged.  NULL is distinct from every
Match outcome (those return a non-null entry pointer), but it is the very
value a successful insertion returns — the source shares one null sentinel
between Error and Inserted, and callers must compare table sizes to tell
them apart (as the header comment instructs). -/
theorem sig_table_insert_alloc_failure_amended (t : SigTable) (s : FileSignature)
    (p : String) (c : Nat)
    (hnone : chain_find (lookupChain t s) s = none) :
    sig_table_insert false t s p c = (none, t) ∧
    (sig_table_insert true t s p c).1 = none ∧
    (∀ e : SigTableEntry, (sig_table_insert false t s p c).1 ≠ some e) ∧
    sig_table_size (sig_table_insert false t s p c).2 = sig_table_size t := by
  have hbg : bucketGet t.buckets (bucket_index t (hash_signature s)) = lookupChain t s := rfl
  refine ⟨?_, ?_, ?_, ?_⟩ <;> simp [sig_table_insert, hbg, hnone]

/-- Witness for C4 (amended) on a concrete empty two-bucket table. -/
theorem sig_table_insert_alloc_failure_witness :
    sig_table_insert false (emptyTable 2) ⟨1, 12, (1, 2, 3, 4), 7⟩ "a" 1 =
        (none, emptyTable 2) ∧
    (sig_table_insert true (emptyTable 2) ⟨1, 12, (1, 2, 3, 4), 7⟩ "a" 1).1 = none ∧
    (∀ e : SigTableEntry,
      (sig_table_insert false (emptyTable 2) ⟨1, 12, (1, 2, 3, 4), 7⟩ "a" 1).1 ≠ some e) ∧
    sig_table_size (sig_table_insert false (emptyTable 2) ⟨1, 12, (1, 2, 3, 4), 7⟩ "a" 1).2 =
      sig_table_size (emptyTable 2) :=
  sig_table_insert_alloc_failure_amended (emptyTable 2) ⟨1, 12, (1, 2, 3, 4), 7⟩ "a" 1
    (by decide)

/-- Counterexample to C4 as stated: on an empty one-bucket table the
return value of a failed insertion equals the return value of a successful
insertion (both NULL) — the Error outcome is not distinct from the
Inserted outcome in the source. -/
theorem sig_table_insert_error_equals_inserted_return :
    (sig_table_insert false (emptyTable 1) ⟨1, 12, (1, 2, 3, 4), 7⟩ "a" 1).1 =
      (sig_table_insert true (emptyTable 1) ⟨1, 12, (1, 2, 3, 4), 7⟩ "a" 1).1 ∧
    (sig_table_insert false (emptyTable 1) ⟨1, 12, (1, 2, 3, 4), 7⟩ "a" 1).1 = none := by
  constructor <;> decide

/-- Witness for C2 on a concrete table containing a match for the
submitted signature. -/
theorem sig_table_insert_match_returns_first_witness :
    ∃ i, ∃ hi : i < (lookupChain exampleTable sigW).length,
      sig_table_insert true exampleTable sigW "b" 2 =
        (some ((lookupChain exampleTable sigW).get ⟨i, hi⟩), exampleTable) ∧
      signatures_match (some ((lookupChain exampleTable sigW).get ⟨i, hi⟩).signature)
          (some sigW) = true ∧
      (∀ j (hj : j < (lookupChain exampleTable sigW).length), j < i →
        signatures_match (some ((lookupChain exampleTable sigW).get ⟨j, hj⟩).signature)
          (some sigW) = false) ∧
      sig_table_size (sig_table_insert true exampleTable sigW "b" 2).2 =
        sig_table_size exampleTable :=
  sig_table_insert_match_returns_first true exampleTable sigW "b" 2 (by decide) (by decide)

/-- Witness for C3: two field-distinct signatures inserted into a fresh
four-bucket table give size 2, and a single fresh insertion reports NULL. -/
theorem sig_table_insert_unique_entries_witness :
    sig_table_size (insertAll (emptyTable 4) [(sigW, "a", 1), (sigX, "b", 2)]) = 2 ∧
    (sig_table_insert true (emptyTable 4) sigW "a" 1).1 = none ∧
    sig_table_size (sig_table_insert true (emptyTable 4) sigW "a" 1).2 =
      sig_table_size (emptyTable 4) + 1 :=
  ⟨sig_table_insert_unique_entries.2 4 [(sigW, "a", 1), (sigX, "b", 2)] (by decide)
      (by decide),
    (sig_table_insert_unique_entries.1 (emptyTable 4) sigW "a" 1 (by decide) (by decide)
        (by decide)).1,
    (sig_table_insert_unique_entries.1 (emptyTable 4) sigW "a" 1 (by decide) (by decide)
        (by decide)).2.2⟩

/-! ### Claim theorems C8, C9, C10 -/

/-- C8: the reserved id 0 is never reported present, whatever the table
holds; a nonzero id is reported present exactly when some entry of some
bucket chain stores it. -/
theorem sig_table_has_clone_id_spec :
    (∀ t : SigTable, sig_table_has_clone_id t 0 = false) ∧
    (∀ (t : SigTable) (cid : Nat), cid ≠ 0 →
      (sig_table_has_clone_id t cid = true ↔
        ∃ chain ∈ t.buckets, ∃ e ∈ chain, e.clone_id = cid)) := by
  constructor
  · intro t
    simp [sig_table_has_clone_id]
  · intro t cid h
    simp [sig_table_has_clone_id, h]

/-- Witness for C8 on a concrete table holding clone id 5. -/
theorem sig_table_has_clone_id_spec_witness :
    sig_table_has_clone_id cloneTable 5 = true ↔
      ∃ chain ∈ cloneTable.buckets, ∃ e ∈ chain, e.clone_id = 5 :=
  sig_table_has_clone_id_spec.2 cloneTable 5 (by decide)

/-- The collision fold computes, bucket by bucket, the truncated
chain-length excess. -/
lemma collisions_foldl_aux :
    ∀ (bs : List (List SigTableEntry)) (acc : Nat),
      bs.foldl (fun a chain => if 1 < chain.length then a + (chain.length - 1) else a) acc =
        acc + (bs.map fun chain => (max ((chain.length : ℤ) - 1) 0).toNat).sum := by
  intro bs
  induction bs with
  | nil =>
    intro acc
    simp
  | cons cchain bs ih =>
    intro acc
    simp only [List.foldl_cons, List.map_cons, List.sum_cons]
    rw [ih]
    have hstep : (if 1 < cchain.length then acc + (cchain.length - 1) else acc) =
        acc + (max ((cchain.length : ℤ) - 1) 0).toNat := by
      split_ifs with h <;> omega
    rw [hstep]
    omega

/-- C9: sig_table_collisions equals the sum over all buckets of
max(chain_length − 1, 0). -/
theorem sig_table_collisions_sum (t : SigTable) :
    sig_table_collisions t =
      (t.buckets.map fun chain => (max ((chain.length : ℤ) - 1) 0).toNat).sum := by
  have := collisions_foldl_aux t.buckets 0
  simpa [sig_table_collisions] using this

/-- C10: construction with bucket_count 0 can succeed (calloc of a
zero-length array may return non-NULL) and hands back a zero-bucket
table; on such a table the unguarded `hash % bucket_count` bucket
selection of sig_table_insert (division by zero in C — in the total Lean
model `hash % 0 = hash`) never lands inside the bucket array, so the
selection step is well-defined only under the unstated precondition
bucket_count ≥ 1; and for every table with bucket_count ≥ 1 the selected
bucket index is strictly below bucket_count. -/
theorem bucket_index_requires_nonzero_buckets :
    new_sig_table true true 0 = some (emptyTable 0) ∧
    (∀ hash : Nat, ¬ bucket_index (emptyTable 0) hash < (emptyTable 0).bucket_count) ∧
    (∀ (t : SigTable) (hash : Nat), 1 ≤ t.bucket_count →
      bucket_index t hash < t.bucket_count) := by
  refine ⟨rfl, ?_, ?_⟩
  · intro hash
    simp [bucket_index, emptyTable]
  · intro t hash hbc
    exact Nat.mod_lt _ hbc

/-- Witness for C10 on a concrete four-bucket table and hash 7. -/
theorem bucket_index_requires_nonzero_buckets_witness :
    bucket_index (emptyTable 4) 7 < (emptyTable 4).bucket_count :=
  bucket_index_requires_nonzero_buckets.2.2 (emptyTable 4) 7 (by decide)

end Dedup
